import Mathlib

/-!
Shallow embedding of the document-layout-annotation editor's core logic.

Sources embedded here:
* `src/shared/validation.ts` — the annotation schema (field requirements,
  enumeration of layout types, positivity constraints);
* `src/client/store/annotationStore.ts` (the revision containing
  `FlexibleAnnotationSchema`) — `AnnotationStoreManager`:
  `setAnnotations`, `addAnnotation`, `updateAnnotation`,
  `deleteAnnotation`, `saveAnnotations`, `reorderAnnotations`;
* `src/client/components/PdfViewer.ts` — the screen/authored coordinate
  conversion in `createAnnotationElement` and its drag/resize end
  handlers, and `extractTextFromSelectionScreenRect` /
  `sanitizeExtractedText`.

Modelling conventions: JS numbers are modelled as `ℚ` (the claims under
study are about exact algebra, sign and ordering, not binary rounding);
integral JS numbers as `Int`/`Nat`.  Effects are made explicit:
`scheduleAutoSave` sets a flag, `notify` bumps a counter, the
persistence gateway of `saveAnnotations` becomes a boolean outcome
parameter, and `crypto.randomUUID` becomes an id supply passed in by the
caller.  Console logging has no state effect and is not modelled.
-/

namespace LayoutEditor

/-- The closed enumeration of layout-element categories
(`src/shared/validation.ts`, `type: z.enum([...])`). -/
inductive AnnType where
  | title
  | sectionHeader
  | text
  | picture
  | table
  | listItem
  | formula
  | footnote
  | pageHeader
  | pageFooter
  | caption
deriving DecidableEq, Repr

/-- An annotation record (`AnnotationSchema` of `src/shared/validation.ts`; the Lean name
is shortened). -/
structure Annot where
  id : String
  left : ℚ
  top : ℚ
  width : ℚ
  height : ℚ
  page_number : Int
  page_width : ℚ
  page_height : ℚ
  text : String
  type : AnnType
deriving DecidableEq, Repr

/-- The argument of `addAnnotation` — an annotation without its id. -/
structure AnnotData where
  left : ℚ
  top : ℚ
  width : ℚ
  height : ℚ
  page_number : Int
  page_width : ℚ
  page_height : ℚ
  text : String
  type : AnnType
deriving DecidableEq, Repr

/-- Attach an id to an `AnnotData`
(`const newAnnotation = { ...annotation, id: crypto.randomUUID() }`). -/
def annFromData (newId : String) (d : AnnotData) : Annot :=
  { id := newId, left := d.left, top := d.top, width := d.width,
    height := d.height, page_number := d.page_number,
    page_width := d.page_width, page_height := d.page_height,
    text := d.text, type := d.type }

/-- The store state (`AnnotationStore` interface), extended with two ghost
fields making effects observable: `autosaveScheduled` records that
`scheduleAutoSave()` ran, `notifyCount` counts `notify()` calls. -/
structure Store where
  annotations : List Annot
  selectedAnnot : Option Annot
  isDirty : Bool
  isSaving : Bool
  lastSaved : Option Nat
  autosaveScheduled : Bool
  notifyCount : Nat
deriving DecidableEq, Repr

/-! ## addAnnot -/

/-- The backward loop of `addAnnotation`
(`for (let i = length - 1; i >= 0; i--) if (a.page_number === p) { insertIndex = i + 1; break }`):
the index of the last annotation on page `p`, if any. -/
def lastSamePageIdx? (p : Int) : List Annot → Option Nat
  | [] => none
  | a :: rest =>
    match lastSamePageIdx? p rest with
    | some i => some (i + 1)
    | none => if a.page_number = p then some 0 else none

/-- The forward loop of `addAnnotation`
(`insertIndex = 0; for (i...) if (a.page_number <= p) insertIndex = i + 1; else break`):
the length of the maximal leading run of annotations with page number `≤ p`. -/
def forwardInsertIdx (p : Int) : List Annot → Nat
  | [] => 0
  | a :: rest => if a.page_number ≤ p then forwardInsertIdx p rest + 1 else 0

/-- `array.splice(i, 0, x)` — insert `x` at index `i`. -/
def spliceInsert (i : Nat) (x : Annot) (l : List Annot) : List Annot :=
  l.take i ++ x :: l.drop i

/-- `AnnotationStoreManager.addAnnotation` (the fresh UUID is passed in as
`newId`).  Inserts after the last same-page annotation if one exists,
otherwise at the index computed by the forward scan; marks dirty,
schedules autosave, notifies. -/
def addAnnot (newId : String) (d : AnnotData) (s : Store) : Store :=
  let newAnn := annFromData newId d
  let idx :=
    match lastSamePageIdx? newAnn.page_number s.annotations with
    | some i => i + 1
    | none => forwardInsertIdx newAnn.page_number s.annotations
  { s with annotations := spliceInsert idx newAnn s.annotations,
           isDirty := true,
           autosaveScheduled := true,
           notifyCount := s.notifyCount + 1 }

/-! ## updateAnnot -/

/-- A `Partial` patch of an annotation record; `none` means the field is absent. -/
structure AnnotPatch where
  id : Option String := none
  left : Option ℚ := none
  top : Option ℚ := none
  width : Option ℚ := none
  height : Option ℚ := none
  page_number : Option Int := none
  page_width : Option ℚ := none
  page_height : Option ℚ := none
  text : Option String := none
  type : Option AnnType := none
deriving DecidableEq, Repr

/-- The body of `updateAnnotation` on the found record: width/height of the
patch are replaced by their absolute values
(`normalizedUpdates.width = Math.abs(updates.width)` when present), then
the patch is spread over the old record
(`{ ...old, ...normalizedUpdates }`). -/
def mergeUpdates (a : Annot) (u : AnnotPatch) : Annot :=
  { id := u.id.getD a.id,
    left := u.left.getD a.left,
    top := u.top.getD a.top,
    width := (u.width.map (fun w => |w|)).getD a.width,
    height := (u.height.map (fun h => |h|)).getD a.height,
    page_number := u.page_number.getD a.page_number,
    page_width := u.page_width.getD a.page_width,
    page_height := u.page_height.getD a.page_height,
    text := u.text.getD a.text,
    type := u.type.getD a.type }

/-- `findIndex` + in-place assignment: rewrite the first annotation whose id
matches, leave the rest alone. -/
def updateFirst (targetId : String) (f : Annot → Annot) :
    List Annot → List Annot
  | [] => []
  | a :: rest =>
    if a.id = targetId then f a :: rest else a :: updateFirst targetId f rest

/-- `AnnotationStoreManager.updateAnnotation`.  No-op when the id is not
found (`findIndex` returns `-1`); otherwise merges the normalized patch,
marks dirty, schedules autosave, and notifies unless `skipRender`. -/
def updateAnnot (targetId : String) (u : AnnotPatch) (skipRender : Bool)
    (s : Store) : Store :=
  if s.annotations.any (fun a => a.id = targetId) then
    { s with annotations := updateFirst targetId (fun a => mergeUpdates a u) s.annotations,
             isDirty := true,
             autosaveScheduled := true,
             notifyCount := if skipRender then s.notifyCount else s.notifyCount + 1 }
  else s

/-! ## deleteAnnot -/

/-- `AnnotationStoreManager.deleteAnnotation`: filter the id out, clear the
selection if it pointed at that id, mark dirty, schedule autosave,
notify — unconditionally, even when the id is absent. -/
def deleteAnnot (targetId : String) (s : Store) : Store :=
  { s with
    annotations := s.annotations.filter (fun a => a.id ≠ targetId),
    selectedAnnot :=
      match s.selectedAnnot with
      | some a => if a.id = targetId then none else some a
      | none => none,
    isDirty := true,
    autosaveScheduled := true,
    notifyCount := s.notifyCount + 1 }

/-! ## saveAnnotations -/

/-- Result of a `saveAnnotations` call: the next store state, how many
gateway (`apiService.saveAnnotations`) calls were made, and whether the
call rethrew the gateway error. -/
structure SaveOutcome where
  store : Store
  gatewayCalls : Nat
  threw : Bool
deriving DecidableEq, Repr

/-- `AnnotationStoreManager.saveAnnotations`, with the gateway outcome as a
parameter (`gatewayOk`) and `new Date()` as `now`.  The guard
`if (!isDirty || isSaving) return` makes it a no-op; otherwise
`isSaving` is set for the duration and reset in `finally` (net effect:
`false`, since the guard ensured it was `false`); on gateway success
dirty is cleared and the timestamp recorded; on failure the error is
rethrown and dirty is left as it was. -/
def saveAnnotations (gatewayOk : Bool) (now : Nat) (s : Store) : SaveOutcome :=
  if !s.isDirty || s.isSaving then
    { store := s, gatewayCalls := 0, threw := false }
  else if gatewayOk then
    { store := { s with isDirty := false, lastSaved := some now, isSaving := false },
      gatewayCalls := 1, threw := false }
  else
    { store := { s with isSaving := false }, gatewayCalls := 1, threw := true }

/-! ## reorderAnnotations -/

/-- `new Map(annotations.map(a => [a.id, a])).get(id)`: a JS `Map` built
from pairs keeps the **last** pair for a duplicated key, so lookup finds
the last annotation carrying the id. -/
def mapGet (anns : List Annot) (targetId : String) : Option Annot :=
  anns.reverse.find? (fun a => a.id = targetId)

/-- The in-place rewrite at the end of `reorderAnnotations`
(`annotations.map(a => a.page_number === p ? nextByOrder[nextIndex++] : a)`):
walk the collection, replacing page-`p` slots with the replacement list
in order.  The `[]` replacement branch mirrors `nextByOrder[nextIndex]`
running past the end; it is unreachable under the cardinality guard. -/
def replaceOnPage (p : Int) : List Annot → List Annot → List Annot
  | _, [] => []
  | repl, a :: rest =>
    if a.page_number = p then
      match repl with
      | [] => a :: replaceOnPage p [] rest
      | r :: rs => r :: replaceOnPage p rs rest
    else a :: replaceOnPage p repl rest

/-- `AnnotationStoreManager.reorderAnnotations`.  Rejects (returns the
store unchanged) an empty id list, a list containing an id missing from
the store, or a list that is not a permutation of the affected page's id
list (checked by equal length, equal number of distinct ids — the JS
`Set` sizes, modelled by `dedup` length — and page-ids ⊆ new-ids);
otherwise rewrites the page's slots in the new order, marks dirty,
schedules autosave and notifies. -/
def reorderAnnotations (newIds : List String) (s : Store) : Store :=
  match newIds with
  | [] => s
  | firstId :: _ =>
    if newIds.any (fun i => (mapGet s.annotations i).isNone) then s
    else
      match mapGet s.annotations firstId with
      | none => s
      | some a0 =>
        if (((s.annotations.filter
                (fun a => a.page_number = a0.page_number)).map (fun a => a.id)).length
              == newIds.length)
            && (((s.annotations.filter
                (fun a => a.page_number = a0.page_number)).map (fun a => a.id)).dedup.length
              == newIds.dedup.length)
            && ((s.annotations.filter
                (fun a => a.page_number = a0.page_number)).map (fun a => a.id)).all
              (fun i => newIds.contains i) then
          { s with annotations :=
                     replaceOnPage a0.page_number
                       (newIds.filterMap (mapGet s.annotations)) s.annotations,
                   isDirty := true,
                   autosaveScheduled := true,
                   notifyCount := s.notifyCount + 1 }
        else s

/-! ## setAnnotations -/

/-- A raw input record for `setAnnotations` (untrusted JSON).  `none`
models a field that is missing or of the wrong shape (non-numeric where
a number is required, a non-string or non-string id, a `type` outside
the enumeration, a non-integral `page_number`). -/
structure RawRecord where
  id : Option String := none
  left : Option ℚ := none
  top : Option ℚ := none
  width : Option ℚ := none
  height : Option ℚ := none
  page_number : Option Int := none
  page_width : Option ℚ := none
  page_height : Option ℚ := none
  text : Option String := none
  type : Option AnnType := none
deriving DecidableEq, Repr

/-- `RawAnnotationSchema.safeParse` success: all non-id fields present,
`width ≥ 0`, `height ≥ 0`, `page_number > 0`, `page_width > 0`,
`page_height > 0`.  (`FlexibleAnnotationSchema` is the union of the
id-carrying and the raw schema, so per-record validity never depends on
the id.) -/
def rawValid (r : RawRecord) : Bool :=
  match r.left, r.top, r.text, r.type, r.page_number, r.width, r.height,
      r.page_width, r.page_height with
  | some _, some _, some _, some _, some pn, some w, some h, some pw, some ph =>
    decide (0 < pn ∧ 0 ≤ w ∧ 0 ≤ h ∧ 0 < pw ∧ 0 < ph)
  | _, _, _, _, _, _, _, _, _ => false

/-- Parse one record as `setAnnotations` does: drop it when the schema
fails; otherwise keep a non-empty string id it carries
(`'id' in data && data.id`), and assign the fresh id `fid` when the id
is missing, non-string (stripped by the raw schema branch of the zod
union) or the empty string (falsy). -/
def parseRecord (fid : String) (r : RawRecord) : Option Annot :=
  match r.left, r.top, r.text, r.type, r.page_number, r.width, r.height,
      r.page_width, r.page_height with
  | some lf, some tp, some tx, some ty, some pn, some w, some h, some pw, some ph =>
    if 0 < pn ∧ 0 ≤ w ∧ 0 ≤ h ∧ 0 < pw ∧ 0 < ph then
      some { id := match r.id with
               | some sid => if sid = "" then fid else sid
               | none => fid,
             left := lf, top := tp, width := w, height := h,
             page_number := pn, page_width := pw, page_height := ph,
             text := tx, type := ty }
    else none
  | _, _, _, _, _, _, _, _, _ => none

/-- The record loop of `setAnnotations`: each record is parsed with the
next fresh id from the supply (indexed by position, mirroring one
`crypto.randomUUID()` call per record that needs one); invalid records
are skipped.  The all-valid fast path of the source
(`FlexibleAnnotationSchema.array().safeParse` success) maps every record
and produces exactly the same list, the two branches differing only in
console diagnostics. -/
def parseAll (fresh : Nat → String) (i : Nat) : List RawRecord → List Annot
  | [] => []
  | r :: rest =>
    match parseRecord (fresh i) r with
    | some a => a :: parseAll fresh (i + 1) rest
    | none => parseAll fresh (i + 1) rest

/-- `AnnotationStoreManager.setAnnotations`: replace the collection with
the accepted records, clear dirty, notify.  Never throws (total
function); does not schedule an autosave and does not touch the
selection. -/
def setAnnotations (fresh : Nat → String) (records : List RawRecord) (s : Store) : Store :=
  { s with annotations := parseAll fresh 0 records,
           isDirty := false,
           notifyCount := s.notifyCount + 1 }

/-! ## Screen/authored coordinate conversion (`PdfViewer.createAnnotationElement`) -/

/-- A rectangle in either coordinate space. -/
structure Rect where
  left : ℚ
  top : ℚ
  width : ℚ
  height : ℚ
deriving DecidableEq, Repr

/-- JS `a || b` on a possibly-missing number: falls back when the value is
`undefined` or `0` (or `NaN`, which ℚ does not have); any other number —
including a negative one — is truthy and kept. -/
def jsOrQ (v : Option ℚ) (d : ℚ) : ℚ :=
  match v with
  | none => d
  | some x => if x = 0 then d else x

/-- `initialScaleX = canvas.width / (annotation.page_width || canvas.width)`. -/
def initialScaleX (canvasW : ℚ) (pw : Option ℚ) : ℚ :=
  canvasW / jsOrQ pw canvasW

/-- `initialScaleY = canvas.height / (annotation.page_height || canvas.height)`. -/
def initialScaleY (canvasH : ℚ) (ph : Option ℚ) : ℚ :=
  canvasH / jsOrQ ph canvasH

/-- Authored → screen: `box.style.left = annotation.left * initialScaleX`
etc. (`createAnnotationElement`, lines 747–757). -/
def toScreenRect (canvasW canvasH : ℚ) (pw ph : Option ℚ) (r : Rect) : Rect :=
  { left := r.left * initialScaleX canvasW pw,
    top := r.top * initialScaleY canvasH ph,
    width := r.width * initialScaleX canvasW pw,
    height := r.height * initialScaleY canvasH ph }

/-- Screen → authored: the resize end handler commits
`finalLeft / initialScaleX`, …, `finalHeight / initialScaleY`
(`createAnnotationElement` resizable end listener). -/
def toAuthoredRect (canvasW canvasH : ℚ) (pw ph : Option ℚ) (r : Rect) : Rect :=
  { left := r.left / initialScaleX canvasW pw,
    top := r.top / initialScaleY canvasH ph,
    width := r.width / initialScaleX canvasW pw,
    height := r.height / initialScaleY canvasH ph }

/-! ## Text extraction (`PdfViewer.extractTextFromSelectionScreenRect`) -/

/-- An `{x, y, w, h}` box in screen space. -/
structure Box where
  x : ℚ
  y : ℚ
  w : ℚ
  h : ℚ
deriving DecidableEq, Repr

/-- A page text run, already converted to its screen-space box (the
viewport-transform arithmetic that produces these boxes belongs to the
external PDF adapter). -/
structure Run where
  box : Box
  str : String
deriving DecidableEq, Repr

/-- The `contains` helper: closed containment of `inner` in `outer` —
exact comparisons, no pixel expansion. -/
def containsBox (outer inner : Box) : Bool :=
  decide (outer.x ≤ inner.x) && decide (outer.y ≤ inner.y) &&
  decide (inner.x + inner.w ≤ outer.x + outer.w) &&
  decide (inner.y + inner.h ≤ outer.y + outer.h)

/-- One entry of the `pieces` array: `{ y: box.y, x: box.x, str }`. -/
structure Piece where
  y : ℚ
  x : ℚ
  str : String
deriving DecidableEq, Repr

/-- The filtering loop: push a piece for every run whose box the selection
contains. -/
def includedPieces (sel : Box) (runs : List Run) : List Piece :=
  (runs.filter (fun r => containsBox sel r.box)).map
    (fun r => { y := r.box.y, x := r.box.x, str := r.str })

/-- `cmp(a, b) ≤ 0` for the sort comparator
`(a, b) => Math.abs(a.y - b.y) < 2 ? a.x - b.x : a.y - b.y`:
runs less than 2px apart vertically compare by x, others by y. -/
def pieceLE (a b : Piece) : Bool :=
  if |a.y - b.y| < 2 then decide (a.x ≤ b.x) else decide (a.y ≤ b.y)

/-- Insert into an already-sorted list, before the first element not
`pieceLE`-below the new one. -/
def orderedInsertPiece (p : Piece) : List Piece → List Piece
  | [] => [p]
  | q :: rest =>
    if pieceLE p q then p :: q :: rest else q :: orderedInsertPiece p rest

/-- `pieces.sort(cmp)`: modelled as a stable insertion sort by the
comparator (JS `Array.prototype.sort` is stable; for a consistent
comparator any stable sort produces the same order). -/
def sortPieces : List Piece → List Piece
  | [] => []
  | p :: rest => orderedInsertPiece p (sortPieces rest)

/-- ASCII letter test, the `[A-Za-z]` character class. -/
def isAsciiLetter (c : Char) : Bool :=
  (decide ('A' ≤ c) && decide (c ≤ 'Z')) || (decide ('a' ≤ c) && decide (c ≤ 'z'))

/-- Dropping a leading run never lengthens a list (used for termination of
the string-sanitizing scans below). -/
theorem dropWhile_length_le (p : Char → Bool) (l : List Char) :
    (l.dropWhile p).length ≤ l.length := by
  induction l with
  | nil => simp [List.dropWhile]
  | cons a rest ih =>
    rw [List.dropWhile]
    cases p a <;> simp <;> omega

/-- `text.replace(/\s+/g, ' ')`: collapse every maximal whitespace run to
one space. -/
def collapseWS : List Char → List Char
  | [] => []
  | c :: rest =>
    if c.isWhitespace then ' ' :: collapseWS (rest.dropWhile Char.isWhitespace)
    else c :: collapseWS rest
termination_by l => l.length
decreasing_by
  · simp only [List.length_cons]
    exact Nat.lt_succ_of_le (dropWhile_length_le _ _)
  · simp

/-- `cleaned.replace(/([A-Za-z])\s+([.,])/g, '$1$2')`: drop whitespace
between a letter and a following `.` or `,`; scanning resumes after each
match, as with a global regex. -/
def fixPunct : List Char → List Char
  | [] => []
  | c :: rest =>
    if isAsciiLetter c ∧ rest.takeWhile Char.isWhitespace ≠ [] then
      match h : rest.dropWhile Char.isWhitespace with
      | p :: rest2 =>
        if p = '.' ∨ p = ',' then c :: p :: fixPunct rest2
        else c :: fixPunct rest
      | [] => c :: fixPunct rest
    else c :: fixPunct rest
termination_by l => l.length
decreasing_by
  · have h1 : (rest.dropWhile Char.isWhitespace).length ≤ rest.length :=
      dropWhile_length_le _ _
    rw [h] at h1
    simp only [List.length_cons] at h1 ⊢
    omega
  all_goals simp

/-- `.trim()`: strip leading and trailing whitespace. -/
def trimWS (l : List Char) : List Char :=
  ((l.dropWhile Char.isWhitespace).reverse.dropWhile Char.isWhitespace).reverse

/-- `PdfViewer.sanitizeExtractedText`. -/
def sanitizeExtractedText (s : String) : String :=
  String.mk (trimWS (fixPunct (collapseWS s.data)))

/-- `PdfViewer.extractTextFromSelectionScreenRect`, from the containment
filter on: filter, sort, `join(' ')`, sanitize. -/
def extractTextFromSelectionScreenRect (sel : Box) (runs : List Run) : String :=
  sanitizeExtractedText
    (String.intercalate " " ((sortPieces (includedPieces sel runs)).map (fun p => p.str)))

/-! ## Concrete fixtures used by counterexamples and witnesses -/

/-- A small concrete annotation for test stores. -/
def demoAnn (i : String) (p : Int) (w h : ℚ) : Annot :=
  { id := i, left := 1, top := 2, width := w, height := h, page_number := p,
    page_width := 100, page_height := 100, text := "t", type := AnnType.text }

/-- A store holding the given collection and otherwise-pristine flags. -/
def demoStore (l : List Annot) : Store :=
  { annotations := l, selectedAnnot := none, isDirty := false,
    isSaving := false, lastSaved := none, autosaveScheduled := false,
    notifyCount := 0 }

/-- Concrete `Omit<.., id>` payload on page `p`. -/
def demoData (p : Int) (w h : ℚ) : AnnotData :=
  { left := 1, top := 2, width := w, height := h, page_number := p,
    page_width := 100, page_height := 100, text := "t", type := AnnType.text }

/-! ## C9 — add stores its input verbatim -/

/-- C9: `addAnnotation` stores the input record with only the freshly
generated id added — every field, including a negative `width` or
`height`, is kept as passed (no absolute-value normalization on add);
the new record is spliced in at some position, the rest of the
collection kept. -/
theorem addAnnot_stores_input_verbatim (s : Store) (newId : String) (d : AnnotData) :
    (∃ n, (addAnnot newId d s).annotations
        = s.annotations.take n ++ annFromData newId d :: s.annotations.drop n)
    ∧ (annFromData newId d).id = newId
    ∧ (annFromData newId d).left = d.left
    ∧ (annFromData newId d).top = d.top
    ∧ (annFromData newId d).width = d.width
    ∧ (annFromData newId d).height = d.height
    ∧ (annFromData newId d).page_number = d.page_number
    ∧ (annFromData newId d).page_width = d.page_width
    ∧ (annFromData newId d).page_height = d.page_height
    ∧ (annFromData newId d).text = d.text
    ∧ (annFromData newId d).type = d.type :=
  ⟨⟨_, rfl⟩, rfl, rfl, rfl, rfl, rfl, rfl, rfl, rfl, rfl, rfl⟩

/-! ## C5 — save is a guarded no-op; failure preserves dirty -/

/-- C5: `saveAnnotations` performs no gateway call and leaves the state
unchanged when nothing is dirty or a save is in flight; when it does
run and the gateway fails, the error propagates, `isDirty` stays `true`
and `isSaving` is reset to `false`; on success dirty is cleared and the
timestamp recorded. -/
theorem saveAnnotations_spec (gOk : Bool) (now : Nat) (s : Store) :
    ((s.isDirty = false ∨ s.isSaving = true) →
        saveAnnotations gOk now s = { store := s, gatewayCalls := 0, threw := false })
    ∧ (s.isDirty = true → s.isSaving = false →
        (saveAnnotations gOk now s).gatewayCalls = 1
        ∧ (gOk = false →
            (saveAnnotations gOk now s).threw = true
            ∧ (saveAnnotations gOk now s).store.isDirty = true
            ∧ (saveAnnotations gOk now s).store.isSaving = false
            ∧ (saveAnnotations gOk now s).store.annotations = s.annotations)
        ∧ (gOk = true →
            (saveAnnotations gOk now s).threw = false
            ∧ (saveAnnotations gOk now s).store.isDirty = false
            ∧ (saveAnnotations gOk now s).store.lastSaved = some now
            ∧ (saveAnnotations gOk now s).store.isSaving = false)) := by
  constructor
  · rintro (h | h) <;> simp [saveAnnotations, h]
  · intro hd hs
    rcases gOk with _ | _ <;> simp [saveAnnotations, hd, hs]

/-- Witness for C5: a dirty, idle store with a failing gateway keeps its
dirty flag and rethrows. -/
theorem saveAnnotations_spec_witness :
    (demoStore [demoAnn "a" 1 3 4]).isDirty = false
    ∧ saveAnnotations true 7 (demoStore [demoAnn "a" 1 3 4])
        = { store := demoStore [demoAnn "a" 1 3 4], gatewayCalls := 0, threw := false } :=
  ⟨rfl, (saveAnnotations_spec true 7 (demoStore [demoAnn "a" 1 3 4])).1 (Or.inl rfl)⟩

/-! ## C6 — screen/authored round trip -/

/-- C6: for positive authored page dimensions and positive rendered canvas
dimensions, converting an authored rectangle to screen space (per-axis
scale `canvasW / page_width`, `canvasH / page_height`) and back by the
division the drag/resize commit path performs reproduces the rectangle
exactly (in ℚ the round trip is exact, hence in particular within any
floating-point tolerance). -/
theorem toScreen_toAuthored_roundTrip (r : Rect) (W H pw ph : ℚ)
    (hW : 0 < W) (hH : 0 < H) (hpw : 0 < pw) (hph : 0 < ph) :
    toAuthoredRect W H (some pw) (some ph) (toScreenRect W H (some pw) (some ph) r) = r := by
  have hsx : initialScaleX W (some pw) ≠ 0 := by
    simp only [initialScaleX, jsOrQ, if_neg (ne_of_gt hpw)]
    exact div_ne_zero (ne_of_gt hW) (ne_of_gt hpw)
  have hsy : initialScaleY H (some ph) ≠ 0 := by
    simp only [initialScaleY, jsOrQ, if_neg (ne_of_gt hph)]
    exact div_ne_zero (ne_of_gt hH) (ne_of_gt hph)
  cases r with
  | mk l t w h =>
    simp only [toScreenRect, toAuthoredRect, Rect.mk.injEq]
    exact ⟨mul_div_cancel_right₀ l hsx, mul_div_cancel_right₀ t hsy,
      mul_div_cancel_right₀ w hsx, mul_div_cancel_right₀ h hsy⟩

/-- Witness for C6 at a concrete rectangle and dimensions. -/
theorem toScreen_toAuthored_roundTrip_witness :
    toAuthoredRect 200 100 (some 100) (some 50)
        (toScreenRect 200 100 (some 100) (some 50) ⟨10, 20, 30, 40⟩)
      = ⟨10, 20, 30, 40⟩ :=
  toScreen_toAuthored_roundTrip ⟨10, 20, 30, 40⟩ 200 100 100 50
    (by norm_num) (by norm_num) (by norm_num) (by norm_num)

/-! ## C7 — fallback happens for missing/zero, not for negative dims -/

/-- Counterexample to C7 as stated: a *negative* `page_width` is truthy in
JS, so `annotation.page_width || canvas.width` does **not** fall back;
the scale factor goes negative and the resulting screen rectangle is
sign-flipped (authored left `10` renders at `-20`). -/
theorem toScreenRect_negative_dims_counterexample :
    toScreenRect 100 100 (some (-50)) (some 100) ⟨10, 10, 10, 10⟩ = ⟨-20, 10, -20, 10⟩
    ∧ ((-50 : ℚ) < 0 ∧ (0 : ℚ) < 10 ∧ (-20 : ℚ) < 0)
    ∧ toScreenRect 100 100 (some (-50)) (some 100) ⟨10, 10, 10, 10⟩ ≠ ⟨10, 10, 10, 10⟩ := by
  refine ⟨?_, by norm_num, ?_⟩ <;>
    simp [toScreenRect, initialScaleX, initialScaleY, jsOrQ, Rect.mk.injEq] <;> norm_num

/-- C7 (amended): the fallback works per axis.  Each axis whose page
dimension (`page_width` for x, `page_height` for y) is missing or zero
— the JS-falsy cases — falls back to the canvas dimension for that
axis, giving scale factor 1 and reproducing that axis's authored
coordinates as-is (no NaN); an axis with a *positive* page dimension
gets a positive scale factor (so no sign flip there either); only a
negative page dimension escapes the fallback (see the counterexample). -/
theorem toScreenRect_fallback_spec (cw ch : ℚ) (pw ph : Option ℚ) (r : Rect)
    (hcw : cw ≠ 0) (hch : ch ≠ 0) :
    ((pw = none ∨ pw = some 0) →
        (toScreenRect cw ch pw ph r).left = r.left
        ∧ (toScreenRect cw ch pw ph r).width = r.width)
    ∧ ((ph = none ∨ ph = some 0) →
        (toScreenRect cw ch pw ph r).top = r.top
        ∧ (toScreenRect cw ch pw ph r).height = r.height)
    ∧ (∀ pwv : ℚ, pw = some pwv → 0 < pwv → 0 < cw → 0 < initialScaleX cw pw)
    ∧ (∀ phv : ℚ, ph = some phv → 0 < phv → 0 < ch → 0 < initialScaleY ch ph) := by
  refine ⟨?_, ?_, ?_, ?_⟩
  · intro hpw
    have h1 : jsOrQ pw cw = cw := by rcases hpw with h | h <;> simp [jsOrQ, h]
    constructor <;> simp [toScreenRect, initialScaleX, h1, div_self hcw]
  · intro hph
    have h2 : jsOrQ ph ch = ch := by rcases hph with h | h <;> simp [jsOrQ, h]
    constructor <;> simp [toScreenRect, initialScaleY, h2, div_self hch]
  · intro pwv hpw hpos hcwpos
    rw [initialScaleX]
    rw [show jsOrQ pw cw = pwv by simp [jsOrQ, hpw, ne_of_gt hpos]]
    exact div_pos hcwpos hpos
  · intro phv hph hpos hchpos
    rw [initialScaleY]
    rw [show jsOrQ ph ch = phv by simp [jsOrQ, hph, ne_of_gt hpos]]
    exact div_pos hchpos hpos

/-- Witness for the amended C7 at a mixed concrete input: `page_width`
missing (x-axis falls back, left/width reproduced) while `page_height`
is positive (y-axis scale is positive, no sign flip). -/
theorem toScreenRect_fallback_spec_witness :
    ((toScreenRect 100 80 none (some 40) ⟨3, 4, 5, 6⟩).left = 3
      ∧ (toScreenRect 100 80 none (some 40) ⟨3, 4, 5, 6⟩).width = 5)
    ∧ 0 < initialScaleY 80 (some 40) := by
  have h := toScreenRect_fallback_spec 100 80 none (some 40) ⟨3, 4, 5, 6⟩
    (by norm_num) (by norm_num)
  exact ⟨h.1 (Or.inl rfl), h.2.2.2 40 rfl (by norm_num) (by norm_num)⟩

/-- `updateFirst` rewrites exactly the first index whose id matches: at
that index the record becomes `f a`, every other index is untouched. -/
theorem updateFirst_getElem? (targetId : String) (f : Annot → Annot)
    (l : List Annot) (i : Nat) (a : Annot)
    (hi : l[i]? = some a) (haid : a.id = targetId)
    (hbefore : ∀ (j : Nat) (b : Annot), j < i → l[j]? = some b → b.id ≠ targetId) :
    (updateFirst targetId f l)[i]? = some (f a)
    ∧ ∀ j, j ≠ i → (updateFirst targetId f l)[j]? = l[j]? := by
  induction l generalizing i with
  | nil => simp at hi
  | cons x rest ih =>
    cases i with
    | zero =>
      have hx : x = a := by simpa using hi
      subst hx
      rw [updateFirst, if_pos haid]
      refine ⟨by simp, ?_⟩
      intro j hj
      cases j with
      | zero => exact absurd rfl hj
      | succ n => simp
    | succ n =>
      have hx : x.id ≠ targetId := hbefore 0 x (Nat.succ_pos n) (by simp)
      rw [updateFirst, if_neg hx]
      have hrest := ih n (by simpa using hi)
        (fun j b hj hjb => hbefore (j + 1) b (by omega) (by simpa using hjb))
      refine ⟨by simpa using hrest.1, ?_⟩
      intro j hj
      cases j with
      | zero => simp
      | succ m =>
        have := hrest.2 m (by omega)
        simpa using this

/-! ## C3 — update normalizes exactly the patched dimensions -/

/-- Counterexample to C3 as stated: a patch containing only `width` leaves
a pre-existing negative `height` (placed by `addAnnotation`, which does
not normalize) untouched, so "width ≥ 0 **and** height ≥ 0 after an
update whose patch contains width and/or height" fails: after
`update("a", {width: -3})` the stored record is `(width 3, height -5)`. -/
theorem updateAnnot_partial_patch_counterexample :
    (updateAnnot "a" { width := some (-3) } false
        (demoStore [demoAnn "a" 1 4 (-5)])).annotations.map (fun a => (a.width, a.height))
      = [((3 : ℚ), (-5 : ℚ))]
    ∧ ¬ ((0 : ℚ) ≤ -5) := by
  constructor
  · decide
  · norm_num

/-- C3 (amended): `update` merges the patch over the record found by id;
each of `width`/`height` **present in the patch** is stored as its
absolute value (hence ≥ 0) regardless of sign; a dimension absent from
the patch keeps its prior value (which add may have left negative); all
other patch fields are merged unchanged; a missing id is a no-op. -/
theorem updateAnnot_merge_spec (s : Store) (targetId : String) (u : AnnotPatch)
    (skip : Bool) :
    ((∀ a ∈ s.annotations, a.id ≠ targetId) → updateAnnot targetId u skip s = s)
    ∧ (∀ (i : Nat) (a : Annot), s.annotations[i]? = some a → a.id = targetId →
        (∀ (j : Nat) (b : Annot), j < i → s.annotations[j]? = some b → b.id ≠ targetId) →
        (updateAnnot targetId u skip s).annotations[i]? = some (mergeUpdates a u)
        ∧ (∀ j, j ≠ i →
            (updateAnnot targetId u skip s).annotations[j]? = s.annotations[j]?)
        ∧ (updateAnnot targetId u skip s).isDirty = true)
    ∧ (∀ a : Annot,
        (∀ w, u.width = some w → (mergeUpdates a u).width = |w| ∧ 0 ≤ (mergeUpdates a u).width)
        ∧ (u.width = none → (mergeUpdates a u).width = a.width)
        ∧ (∀ h, u.height = some h →
            (mergeUpdates a u).height = |h| ∧ 0 ≤ (mergeUpdates a u).height)
        ∧ (u.height = none → (mergeUpdates a u).height = a.height)
        ∧ (∀ x, u.left = some x → (mergeUpdates a u).left = x)
        ∧ (u.left = none → (mergeUpdates a u).left = a.left)
        ∧ (∀ x, u.top = some x → (mergeUpdates a u).top = x)
        ∧ (u.top = none → (mergeUpdates a u).top = a.top)
        ∧ (∀ x, u.text = some x → (mergeUpdates a u).text = x)
        ∧ (u.text = none → (mergeUpdates a u).text = a.text)
        ∧ (∀ x, u.type = some x → (mergeUpdates a u).type = x)
        ∧ (u.type = none → (mergeUpdates a u).type = a.type)) := by
  refine ⟨?_, ?_, ?_⟩
  · intro hall
    have hany : s.annotations.any (fun a => a.id = targetId) = false := by
      simp only [List.any_eq_false, decide_eq_true_eq]
      exact hall
    simp [updateAnnot, hany]
  · intro i a hi haid hbefore
    have hmem : a ∈ s.annotations := List.getElem?_mem hi
    have hany : s.annotations.any (fun x => x.id = targetId) = true := by
      simp only [List.any_eq_true, decide_eq_true_eq]
      exact ⟨a, hmem, haid⟩
    have hupd := updateFirst_getElem? targetId (fun x => mergeUpdates x u)
      s.annotations i a hi haid hbefore
    refine ⟨?_, ?_, ?_⟩
    · simpa [updateAnnot, hany] using hupd.1
    · intro j hj
      simpa [updateAnnot, hany] using hupd.2 j hj
    · simp [updateAnnot, hany]
  · intro a
    refine ⟨?_, ?_, ?_, ?_, ?_, ?_, ?_, ?_, ?_, ?_, ?_, ?_⟩ <;>
      first
      | (intro x hx; simp [mergeUpdates, hx, abs_nonneg])
      | (intro hx; simp [mergeUpdates, hx])

/-- Witness for the amended C3 at a concrete store and patch. -/
theorem updateAnnot_merge_spec_witness :
    ((updateAnnot "a" { width := some (-3), text := some "u" } false
        (demoStore [demoAnn "a" 1 4 (-5)])).annotations[0]?
      = some (mergeUpdates (demoAnn "a" 1 4 (-5))
          { width := some (-3), text := some "u" }))
    ∧ (updateAnnot "a" { width := some (-3), text := some "u" } false
        (demoStore [demoAnn "a" 1 4 (-5)])).isDirty = true := by
  have h := (updateAnnot_merge_spec (demoStore [demoAnn "a" 1 4 (-5)]) "a"
    { width := some (-3), text := some "u" } false).2.1 0 (demoAnn "a" 1 4 (-5))
    (by decide) (by decide) (by omega)
  exact ⟨h.1, h.2.2⟩

/-! ## C10 — deleting a nonexistent id still dirties and notifies -/

/-- A store with a *stale* selection: the selected record's id `"x"` is
not in the collection.  Reachable in the source: `selectAnnotation` is
called, then `setAnnotations` (a file switch) replaces the collection
without clearing `selectedAnnotation`. -/
def staleSelStore : Store :=
  { demoStore [demoAnn "a" 1 3 4] with selectedAnnot := some (demoAnn "x" 1 3 4) }

/-- Counterexample to C10 as stated: deleting an id absent from the
collection does **not** always leave the selection unchanged — a stale
selection carrying exactly the deleted id is cleared
(`selectedAnnotation?.id === id` only checks the selected object, not
collection membership).  The annotation list is still unchanged. -/
theorem deleteAnnot_stale_selection_counterexample :
    (staleSelStore.annotations.map (fun a => a.id)) = ["a"]
    ∧ (deleteAnnot "x" staleSelStore).annotations = staleSelStore.annotations
    ∧ staleSelStore.selectedAnnot = some (demoAnn "x" 1 3 4)
    ∧ (deleteAnnot "x" staleSelStore).selectedAnnot = none
    ∧ (deleteAnnot "x" staleSelStore).selectedAnnot ≠ staleSelStore.selectedAnnot := by
  refine ⟨by decide, by decide, rfl, by decide, by decide⟩

/-- C10 (amended): deleting an id absent from the collection leaves the
annotation list unchanged; the selection is unchanged *unless* it is a
stale reference whose id equals the deleted id, in which case it is
cleared; in every case the dirty flag is set, an autosave is scheduled
and subscribers are notified — deletion of a nonexistent id is not a
pure no-op. -/
theorem deleteAnnot_missing_id_spec (s : Store) (targetId : String)
    (hid : ∀ a ∈ s.annotations, a.id ≠ targetId) :
    (deleteAnnot targetId s).annotations = s.annotations
    ∧ ((∀ a : Annot, s.selectedAnnot = some a → a.id ≠ targetId) →
        (deleteAnnot targetId s).selectedAnnot = s.selectedAnnot)
    ∧ (∀ a : Annot, s.selectedAnnot = some a → a.id = targetId →
        (deleteAnnot targetId s).selectedAnnot = none)
    ∧ (deleteAnnot targetId s).isDirty = true
    ∧ (deleteAnnot targetId s).autosaveScheduled = true
    ∧ (deleteAnnot targetId s).notifyCount = s.notifyCount + 1 := by
  refine ⟨?_, ?_, ?_, rfl, rfl, rfl⟩
  · simp only [deleteAnnot]
    exact List.filter_eq_self.mpr (fun a ha => by simp [hid a ha])
  · intro hsel
    simp only [deleteAnnot]
    split
    · rename_i a heq
      rw [if_neg (hsel a heq), heq]
    · rename_i heq
      rw [heq]
  · intro a hS haid
    simp only [deleteAnnot]
    split
    · rename_i b heq
      have hba : b = a := by
        rw [heq] at hS
        exact Option.some.inj hS
      subst hba
      rw [if_pos haid]
    · rfl

/-- Witness for the amended C10: deleting `"zz"` from a store holding
only id `"a"` (which is also selected) changes nothing except
dirty/autosave/notify. -/
theorem deleteAnnot_missing_id_spec_witness :
    (deleteAnnot "zz" { demoStore [demoAnn "a" 1 3 4] with
        selectedAnnot := some (demoAnn "a" 1 3 4) }).annotations
      = [demoAnn "a" 1 3 4]
    ∧ (deleteAnnot "zz" { demoStore [demoAnn "a" 1 3 4] with
        selectedAnnot := some (demoAnn "a" 1 3 4) }).selectedAnnot
      = some (demoAnn "a" 1 3 4)
    ∧ (deleteAnnot "zz" { demoStore [demoAnn "a" 1 3 4] with
        selectedAnnot := some (demoAnn "a" 1 3 4) }).isDirty = true := by
  have h := deleteAnnot_missing_id_spec
    { demoStore [demoAnn "a" 1 3 4] with selectedAnnot := some (demoAnn "a" 1 3 4) }
    "zz" (by decide)
  refine ⟨h.1, ?_, h.2.2.2.1⟩
  refine h.2.1 ?_
  intro a ha
  rw [← Option.some.inj ha]
  decide

/-! ## C4 — replaceAll accepts exactly the valid records -/

/-- A record parses successfully exactly when it is schema-valid. -/
theorem parseRecord_isSome (fid : String) (r : RawRecord) :
    (parseRecord fid r).isSome = rawValid r := by
  unfold parseRecord rawValid
  split <;> simp_all <;> split_ifs <;> simp_all

/-- Each accepted record of the loop comes from a position in the input. -/
theorem mem_parseAll_elim (fresh : Nat → String) (k : Nat) (records : List RawRecord)
    (a : Annot) (ha : a ∈ parseAll fresh k records) :
    ∃ i r, records[i]? = some r ∧ rawValid r = true
      ∧ parseRecord (fresh (k + i)) r = some a := by
  induction records generalizing k with
  | nil => simp [parseAll] at ha
  | cons r rest ih =>
    rw [parseAll] at ha
    cases hpr : parseRecord (fresh k) r with
    | some b =>
      rw [hpr] at ha
      rcases List.mem_cons.mp ha with h | h
      · subst h
        refine ⟨0, r, by simp, ?_, by simpa using hpr⟩
        rw [← parseRecord_isSome (fresh k) r, hpr]
        rfl
      · rcases ih (k + 1) h with ⟨i, r2, hi, hv, hp⟩
        exact ⟨i + 1, r2, by simpa using hi, hv, by simpa [Nat.add_assoc, Nat.add_comm 1 i] using hp⟩
    | none =>
      rw [hpr] at ha
      rcases ih (k + 1) ha with ⟨i, r2, hi, hv, hp⟩
      exact ⟨i + 1, r2, by simpa using hi, hv, by simpa [Nat.add_assoc, Nat.add_comm 1 i] using hp⟩

/-- Every valid input record is accepted by the loop. -/
theorem mem_parseAll_intro (fresh : Nat → String) (k : Nat) (records : List RawRecord)
    (i : Nat) (r : RawRecord) (hi : records[i]? = some r) (hv : rawValid r = true) :
    ∃ a ∈ parseAll fresh k records, parseRecord (fresh (k + i)) r = some a := by
  induction records generalizing k i with
  | nil => simp at hi
  | cons x rest ih =>
    cases i with
    | zero =>
      have hx : x = r := by simpa using hi
      subst hx
      have hsome : (parseRecord (fresh k) x).isSome = true := by
        rw [parseRecord_isSome]; exact hv
      rcases Option.isSome_iff_exists.mp hsome with ⟨a, hpa⟩
      refine ⟨a, ?_, by simpa using hpa⟩
      rw [parseAll, hpa]
      exact List.mem_cons_self a _
    | succ n =>
      rcases ih (k + 1) n (by simpa using hi) with ⟨a, hmem, hp⟩
      refine ⟨a, ?_, by simpa [Nat.add_assoc, Nat.add_comm 1 n] using hp⟩
      rw [parseAll]
      cases hpx : parseRecord (fresh k) x with
      | some b => exact List.mem_cons_of_mem b hmem
      | none => exact hmem

/-- The loop accepts as many records as are valid. -/
theorem parseAll_length (fresh : Nat → String) (k : Nat) (records : List RawRecord) :
    (parseAll fresh k records).length = (records.filter rawValid).length := by
  induction records generalizing k with
  | nil => rfl
  | cons r rest ih =>
    rw [parseAll, List.filter_cons]
    cases hpr : parseRecord (fresh k) r with
    | some a =>
      have hv : rawValid r = true := by
        rw [← parseRecord_isSome (fresh k) r, hpr]; rfl
      simp [hv, ih (k + 1)]
    | none =>
      have hv : rawValid r = false := by
        rw [← parseRecord_isSome (fresh k) r, hpr]; rfl
      simp [hv, ih (k + 1)]

/-- C4: `setAnnotations` (replaceAll) on a mixed list does not throw (it is
a total function), accepts exactly the schema-valid records — each valid
record at position `i` yields exactly one stored record, invalid ones
are dropped — clears the dirty flag, and assigns ids by the policy:
a non-empty carried id is kept, otherwise the fresh id for that position
is used. -/
theorem setAnnotations_spec (fresh : Nat → String) (records : List RawRecord) (s : Store) :
    (setAnnotations fresh records s).isDirty = false
    ∧ (setAnnotations fresh records s).annotations.length
        = (records.filter rawValid).length
    ∧ (∀ (i : Nat) (r : RawRecord), records[i]? = some r → rawValid r = true →
        ∃ a ∈ (setAnnotations fresh records s).annotations,
          parseRecord (fresh i) r = some a)
    ∧ (∀ a ∈ (setAnnotations fresh records s).annotations,
        ∃ (i : Nat) (r : RawRecord), records[i]? = some r ∧ rawValid r = true
          ∧ parseRecord (fresh i) r = some a)
    ∧ (∀ (fid : String) (r : RawRecord) (a : Annot), parseRecord fid r = some a →
        (∀ sid, r.id = some sid → sid ≠ "" → a.id = sid)
        ∧ ((r.id = none ∨ r.id = some "") → a.id = fid)) := by
  refine ⟨rfl, parseAll_length fresh 0 records, ?_, ?_, ?_⟩
  · intro i r hi hv
    have := mem_parseAll_intro fresh 0 records i r hi hv
    simpa using this
  · intro a ha
    have := mem_parseAll_elim fresh 0 records a (by simpa using ha)
    simpa using this
  · intro fid r a hpa
    have hid : a.id = (match r.id with
        | some sid => if sid = "" then fid else sid
        | none => fid) := by
      unfold parseRecord at hpa
      split at hpa
      · split_ifs at hpa
        · exact (congrArg Annot.id (Option.some.inj hpa)).symm
      · simp at hpa
    constructor
    · intro sid hsid hne
      rw [hid, hsid]
      exact if_neg hne
    · intro h
      rcases h with h | h <;> rw [hid, h] <;> simp

/-- Witness for C4: one valid and one invalid record — exactly the valid
one is accepted and dirty is cleared. -/
theorem setAnnotations_spec_witness :
    (setAnnotations (fun n => if n = 0 then "f0" else "f1")
        [{ left := some 1, top := some 2, width := some 3, height := some 4,
           page_number := some 1, page_width := some 10, page_height := some 10,
           text := some "ok", type := some AnnType.text },
         { left := none }] (demoStore [])).isDirty = false
    ∧ (setAnnotations (fun n => if n = 0 then "f0" else "f1")
        [{ left := some 1, top := some 2, width := some 3, height := some 4,
           page_number := some 1, page_width := some 10, page_height := some 10,
           text := some "ok", type := some AnnType.text },
         { left := none }] (demoStore [])).annotations.length
        = ([{ left := some 1, top := some 2, width := some 3, height := some 4,
              page_number := some 1, page_width := some 10, page_height := some 10,
              text := some "ok", type := some AnnType.text },
            ({ left := none } : RawRecord)].filter rawValid).length := by
  have h := setAnnotations_spec (fun n => if n = 0 then "f0" else "f1")
    [{ left := some 1, top := some 2, width := some 3, height := some 4,
       page_number := some 1, page_width := some 10, page_height := some 10,
       text := some "ok", type := some AnnType.text },
     { left := none }] (demoStore [])
  exact ⟨h.1, h.2.1⟩

/-! ## C2 — insertion index of add -/

/-- The backward scan finds nothing exactly when no annotation is on the
page. -/
theorem lastSamePageIdx?_eq_none (p : Int) (l : List Annot) :
    lastSamePageIdx? p l = none ↔ ∀ a ∈ l, a.page_number ≠ p := by
  induction l with
  | nil => simp [lastSamePageIdx?]
  | cons x rest ih =>
    rw [lastSamePageIdx?]
    cases h : lastSamePageIdx? p rest with
    | some i =>
      have hex : ¬ ∀ a ∈ rest, a.page_number ≠ p := by
        rw [← ih, h]; simp
      simp only []
      constructor
      · intro hc; exact (Option.some_ne_none _ hc).elim
      · intro hall
        exact (hex (fun a ha => hall a (List.mem_cons_of_mem x ha))).elim
    | none =>
      have hrest : ∀ a ∈ rest, a.page_number ≠ p := ih.mp h
      by_cases hx : x.page_number = p
      · simp only [if_pos hx]
        constructor
        · intro hc; exact (Option.some_ne_none _ hc).elim
        · intro hall; exact (hall x (List.mem_cons_self x rest) hx).elim
      · simp only [if_neg hx]
        constructor
        · intro _ a ha
          rcases List.mem_cons.mp ha with h1 | h1
          · exact h1 ▸ hx
          · exact hrest a h1
        · intro _
          trivial

/-- The backward scan returns the last index on the page. -/
theorem lastSamePageIdx?_eq_some (p : Int) (l : List Annot) (i : Nat) (a : Annot)
    (hi : l[i]? = some a) (ha : a.page_number = p)
    (hafter : ∀ (j : Nat) (b : Annot), i < j → l[j]? = some b → b.page_number ≠ p) :
    lastSamePageIdx? p l = some i := by
  induction l generalizing i with
  | nil => simp at hi
  | cons x rest ih =>
    cases i with
    | zero =>
      have hx : x = a := by simpa using hi
      subst hx
      have hrest : lastSamePageIdx? p rest = none := by
        rw [lastSamePageIdx?_eq_none]
        intro b hb
        rcases (List.mem_iff_getElem?).mp hb with ⟨j, hj⟩
        exact hafter (j + 1) b (Nat.succ_pos j) (by simpa using hj)
      rw [lastSamePageIdx?, hrest, if_pos ha]
    | succ n =>
      have hsome := ih n (by simpa using hi)
        (fun j b hj hjb => hafter (j + 1) b (by omega) (by simpa using hjb))
      rw [lastSamePageIdx?, hsome]

/-- The forward scan ends after the maximal leading run of pages `≤ p`. -/
theorem forwardInsertIdx_eq_takeWhile (p : Int) (l : List Annot) :
    forwardInsertIdx p l
      = (l.takeWhile (fun a => decide (a.page_number ≤ p))).length := by
  induction l with
  | nil => rfl
  | cons x rest ih =>
    rw [forwardInsertIdx, List.takeWhile_cons]
    by_cases hx : x.page_number ≤ p
    · simp [hx, ih]
    · simp [hx]

/-- Taking a `takeWhile`-length left part gives back the `takeWhile`. -/
theorem take_takeWhile_length {α : Type} (q : α → Bool) (l : List α) :
    l.take (l.takeWhile q).length = l.takeWhile q := by
  induction l with
  | nil => rfl
  | cons x rest ih =>
    rw [List.takeWhile_cons]
    by_cases hx : q x
    · simp [hx, ih]
    · simp [hx]

/-- Dropping a `takeWhile`-length left part gives the `dropWhile`. -/
theorem drop_takeWhile_length {α : Type} (q : α → Bool) (l : List α) :
    l.drop (l.takeWhile q).length = l.dropWhile q := by
  induction l with
  | nil => rfl
  | cons x rest ih =>
    rw [List.takeWhile_cons, List.dropWhile_cons]
    by_cases hx : q x
    · simp [hx, ih]
    · simp [hx]

/-- A store whose collection is *not* grouped by page: pages `[3, 1]`. -/
def c2Store : Store := demoStore [demoAnn "a" 3 1 1, demoAnn "b" 1 1 1]

/-- Counterexample to C2 as stated: in the unsorted store with pages
`[3, 1]`, adding a page-2 annotation lands at index 0, although the last
annotation belonging to an earlier page (page 1, at index 1) exists —
the claim's rule would have inserted at index 2.  The forward scan stops
at the first later-page annotation instead of seeking the last
earlier-page one. -/
theorem addAnnot_unsorted_store_counterexample :
    (c2Store.annotations.map (fun a => a.page_number)) = [3, 1]
    ∧ ((addAnnot "n" (demoData 2 5 5) c2Store).annotations.map (fun a => a.id))
        = ["n", "a", "b"]
    ∧ (c2Store.annotations[1]?.map (fun a => a.page_number)) = some 1
    ∧ ((addAnnot "n" (demoData 2 5 5) c2Store).annotations.map (fun a => a.id))
        ≠ ["a", "b", "n"] := by
  refine ⟨by decide, by decide, by decide, by decide⟩

/-- C2 (amended): `add` inserts immediately after the **last** existing
annotation on the same page if one exists; otherwise after the maximal
leading run of annotations whose page number is `≤` the new page (which
coincides with "after the last earlier-page annotation" whenever the
collection is grouped in nondecreasing page order, and is index 0 when
the run is empty); dirty is set.  The `[1,1,2]` examples of the claim
hold. -/
theorem addAnnot_insertion_spec (s : Store) (newId : String) (d : AnnotData) :
    ((∀ a ∈ s.annotations, a.page_number ≠ d.page_number) →
        (addAnnot newId d s).annotations
          = s.annotations.takeWhile (fun a => decide (a.page_number ≤ d.page_number))
            ++ annFromData newId d
              :: s.annotations.dropWhile (fun a => decide (a.page_number ≤ d.page_number)))
    ∧ (∀ (i : Nat) (a : Annot), s.annotations[i]? = some a →
        a.page_number = d.page_number →
        (∀ (j : Nat) (b : Annot), i < j → s.annotations[j]? = some b →
          b.page_number ≠ d.page_number) →
        (addAnnot newId d s).annotations
          = s.annotations.take (i + 1) ++ annFromData newId d :: s.annotations.drop (i + 1))
    ∧ (addAnnot newId d s).isDirty = true := by
  have hpn : (annFromData newId d).page_number = d.page_number := rfl
  refine ⟨?_, ?_, rfl⟩
  · intro hnone
    have h1 : lastSamePageIdx? (annFromData newId d).page_number s.annotations = none := by
      rw [hpn, lastSamePageIdx?_eq_none]
      exact hnone
    show spliceInsert _ _ _ = _
    rw [h1]
    rw [spliceInsert, hpn, forwardInsertIdx_eq_takeWhile,
      take_takeWhile_length, drop_takeWhile_length]
  · intro i a hi hpage hafter
    have h1 : lastSamePageIdx? (annFromData newId d).page_number s.annotations = some i := by
      rw [hpn]
      exact lastSamePageIdx?_eq_some d.page_number s.annotations i a hi hpage hafter
    show spliceInsert _ _ _ = _
    rw [h1]
    rfl

/-- A page-grouped store with pages `[1, 1, 2]`, as in the claim's
examples. -/
def store112 : Store :=
  demoStore [demoAnn "a" 1 1 1, demoAnn "b" 1 1 1, demoAnn "c" 2 1 1]

/-- Witness for the amended C2: adding a page-3 annotation to the
`[1, 1, 2]` store appends at the end (the whole collection is the
`≤ 3` leading run). -/
theorem addAnnot_insertion_spec_witness :
    (addAnnot "n" (demoData 3 5 5) store112).annotations
      = store112.annotations.takeWhile
          (fun a => decide (a.page_number ≤ (demoData 3 5 5).page_number))
        ++ annFromData "n" (demoData 3 5 5)
          :: store112.annotations.dropWhile
            (fun a => decide (a.page_number ≤ (demoData 3 5 5).page_number)) :=
  (addAnnot_insertion_spec store112 "n" (demoData 3 5 5)).1 (by decide)

/-! ## C1 — reorder: strict-permutation validation -/

/-- A successful map lookup yields a collection member carrying the id. -/
theorem mapGet_eq_some_imp (l : List Annot) (i : String) (a : Annot)
    (h : mapGet l i = some a) : a ∈ l ∧ a.id = i := by
  unfold mapGet at h
  refine ⟨List.mem_reverse.mp (List.mem_of_find?_eq_some h), ?_⟩
  simpa using List.find?_some h

/-- Two collection members with equal ids coincide when ids are unique. -/
theorem annId_inj (l : List Annot) (a b : Annot)
    (hnodup : (l.map (fun x => x.id)).Nodup)
    (ha : a ∈ l) (hb : b ∈ l) (heq : a.id = b.id) : a = b :=
  List.inj_on_of_nodup_map hnodup ha hb heq

/-- With unique ids, the map lookup finds exactly the member with the id. -/
theorem mapGet_eq_some_of (l : List Annot) (i : String) (a : Annot)
    (hnodup : (l.map (fun x => x.id)).Nodup)
    (ha : a ∈ l) (haid : a.id = i) : mapGet l i = some a := by
  cases h : mapGet l i with
  | none =>
    unfold mapGet at h
    rw [List.find?_eq_none] at h
    exact absurd (by simpa using haid) (h a (List.mem_reverse.mpr ha))
  | some b =>
    rcases mapGet_eq_some_imp l i b h with ⟨hbmem, hbid⟩
    rw [annId_inj l a b hnodup ha hbmem (haid.trans hbid.symm)]

/-- The `replaceOnPage` rewrite never changes the collection's length. -/
theorem replaceOnPage_length (p : Int) (repl l : List Annot) :
    (replaceOnPage p repl l).length = l.length := by
  induction l generalizing repl with
  | nil => rfl
  | cons x rest ih =>
    simp only [replaceOnPage]
    by_cases hp : x.page_number = p
    · rw [if_pos hp]
      cases repl with
      | nil => simp [ih]
      | cons r rs => simp [ih]
    · rw [if_neg hp]
      simp [ih]

/-- `replaceOnPage` leaves every off-page position untouched. -/
theorem replaceOnPage_getElem?_offPage (p : Int) (repl l : List Annot)
    (i : Nat) (a : Annot) (hi : l[i]? = some a) (hp : a.page_number ≠ p) :
    (replaceOnPage p repl l)[i]? = some a := by
  induction l generalizing repl i with
  | nil => simp at hi
  | cons x rest ih =>
    simp only [replaceOnPage]
    cases i with
    | zero =>
      have hx : x = a := by simpa using hi
      subst hx
      rw [if_neg hp]
      simp
    | succ n =>
      have hi2 : rest[n]? = some a := by simpa using hi
      by_cases hxp : x.page_number = p
      · rw [if_pos hxp]
        cases repl with
        | nil => simpa using ih [] n hi2
        | cons r rs => simpa using ih rs n hi2
      · rw [if_neg hxp]
        simpa using ih repl n hi2

/-- When the replacement list consists of page-`p` records and matches the
page's cardinality, `replaceOnPage` installs exactly it as the page's
subsequence. -/
theorem replaceOnPage_filter (p : Int) (repl l : List Annot)
    (hrep : ∀ r ∈ repl, r.page_number = p)
    (hlen : (l.filter (fun a => a.page_number = p)).length = repl.length) :
    (replaceOnPage p repl l).filter (fun a => a.page_number = p) = repl := by
  induction l generalizing repl with
  | nil =>
    simp only [List.filter_nil, List.length_nil] at hlen
    simp only [replaceOnPage]
    simp [(List.length_eq_zero.mp hlen.symm)]
  | cons x rest ih =>
    simp only [replaceOnPage]
    by_cases hxp : x.page_number = p
    · rw [if_pos hxp]
      rw [List.filter_cons_of_pos (by simpa using hxp)] at hlen
      simp only [List.length_cons] at hlen
      cases repl with
      | nil => simp at hlen
      | cons r rs =>
        simp only [List.length_cons] at hlen
        rw [List.filter_cons_of_pos (by simpa using hrep r (List.mem_cons_self r rs))]
        rw [ih rs (fun x hx => hrep x (List.mem_cons_of_mem r hx)) (by omega)]
    · rw [if_neg hxp]
      rw [List.filter_cons_of_neg (by simpa using hxp)] at hlen
      rw [List.filter_cons_of_neg (by simpa using hxp)]
      exact ih repl hrep hlen

/-- `filterMap` over a list on which the function always succeeds keeps the
length. -/
theorem filterMap_length_of_isSome {α β : Type} (f : α → Option β) (l : List α)
    (h : ∀ x ∈ l, (f x).isSome = true) : (l.filterMap f).length = l.length := by
  induction l with
  | nil => rfl
  | cons x rest ih =>
    rcases Option.isSome_iff_exists.mp (h x (List.mem_cons_self x rest)) with ⟨b, hb⟩
    rw [List.filterMap_cons, hb]
    simp [ih (fun y hy => h y (List.mem_cons_of_mem x hy))]

/-- The JS `Set`-cardinality/membership guard of `reorderAnnotations` holds
exactly for true permutations of the page's id list (given unique ids in
the store). -/
theorem reorderGuard_iff_perm (l : List Annot) (p : Int) (newIds : List String)
    (hnodup : (l.map (fun a => a.id)).Nodup) :
    (((((l.filter (fun a => a.page_number = p)).map (fun a => a.id)).length
          == newIds.length)
        && ((((l.filter (fun a => a.page_number = p)).map (fun a => a.id)).dedup.length
          == newIds.dedup.length))
        && (((l.filter (fun a => a.page_number = p)).map (fun a => a.id)).all
          (fun i => newIds.contains i))) = true)
    ↔ newIds.Perm ((l.filter (fun a => a.page_number = p)).map (fun a => a.id)) := by
  have hpn : ((l.filter (fun a => a.page_number = p)).map (fun a => a.id)).Nodup :=
    hnodup.sublist ((List.filter_sublist l).map (fun a => a.id))
  rw [Bool.and_eq_true, Bool.and_eq_true, beq_iff_eq, beq_iff_eq, List.all_eq_true]
  simp only [List.elem_iff]
  constructor
  · rintro ⟨⟨hlen, hded⟩, hsub⟩
    have hpd := List.dedup_eq_self.mpr hpn
    have h1 : newIds.dedup.length = newIds.length := by
      rw [← hded, hpd, hlen]
    have hnn : newIds.Nodup := by
      rw [← List.dedup_eq_self]
      exact (List.dedup_sublist newIds).eq_of_length h1
    have hsp := hpn.subperm hsub
    exact (hsp.perm_of_length_le (le_of_eq hlen.symm)).symm
  · intro hperm
    exact ⟨⟨hperm.length_eq.symm, hperm.dedup.length_eq.symm⟩,
      fun i hi => hperm.symm.subset hi⟩

/-- C1: `reorderAnnotations` silently rejects — returning the store fully
unchanged, in particular with collection and dirty flag intact — an
empty id list, a list containing an id missing from the store, and any
list that is not a true permutation of some page's id list; and when the
list is a true permutation of page `q`'s ids, it reorders exactly that
page's subsequence to the given order, leaves every other page's
annotations at their positions, keeps the collection length, and marks
dirty.  (Store ids are assumed unique, the spec's data-model invariant.) -/
theorem reorderAnnotations_spec (s : Store) (newIds : List String)
    (hnodup : (s.annotations.map (fun a => a.id)).Nodup) :
    (newIds = [] → reorderAnnotations newIds s = s)
    ∧ ((∃ i ∈ newIds, ∀ a ∈ s.annotations, a.id ≠ i) →
        reorderAnnotations newIds s = s)
    ∧ ((∀ q : Int, ¬ newIds.Perm
          ((s.annotations.filter (fun a => a.page_number = q)).map (fun a => a.id))) →
        reorderAnnotations newIds s = s)
    ∧ (∀ q : Int, newIds ≠ [] →
        newIds.Perm
          ((s.annotations.filter (fun a => a.page_number = q)).map (fun a => a.id)) →
        (reorderAnnotations newIds s).isDirty = true
        ∧ (reorderAnnotations newIds s).annotations.length = s.annotations.length
        ∧ (∀ (i : Nat) (a : Annot), s.annotations[i]? = some a → a.page_number ≠ q →
            (reorderAnnotations newIds s).annotations[i]? = some a)
        ∧ (reorderAnnotations newIds s).annotations.filter (fun a => a.page_number = q)
            = newIds.filterMap (mapGet s.annotations)) := by
  refine ⟨?_, ?_, ?_, ?_⟩
  · intro h
    subst h
    rfl
  · rintro ⟨i, hiIn, hmiss⟩
    cases newIds with
    | nil => rfl
    | cons f rest =>
      have hnone : mapGet s.annotations i = none := by
        unfold mapGet
        rw [List.find?_eq_none]
        intro x hx
        simpa using hmiss x (List.mem_reverse.mp hx)
      have hany : (f :: rest).any (fun j => (mapGet s.annotations j).isNone) = true := by
        rw [List.any_eq_true]
        exact ⟨i, hiIn, by simp [hnone]⟩
      rw [reorderAnnotations, if_pos hany]
  · intro hno
    cases newIds with
    | nil => rfl
    | cons f rest =>
      by_cases hany : (f :: rest).any (fun j => (mapGet s.annotations j).isNone) = true
      · rw [reorderAnnotations, if_pos hany]
      · rw [reorderAnnotations, if_neg hany]
        split
        · rfl
        · rename_i a0 hm
          split
          · rename_i hguard
            exact absurd
              ((reorderGuard_iff_perm s.annotations a0.page_number (f :: rest) hnodup).mp
                hguard)
              (hno a0.page_number)
          · rfl
  · intro q hne hperm
    cases newIds with
    | nil => exact absurd rfl hne
    | cons f rest =>
      have hfIn : f ∈ (s.annotations.filter (fun a => a.page_number = q)).map
          (fun a => a.id) := hperm.subset (List.mem_cons_self f rest)
      rcases List.mem_map.mp hfIn with ⟨af, hafF, hafId⟩
      have hafMem : af ∈ s.annotations := List.mem_of_mem_filter hafF
      have hafPage : af.page_number = q := by
        simpa using (List.mem_filter.mp hafF).2
      have hmf : mapGet s.annotations f = some af :=
        mapGet_eq_some_of s.annotations f af hnodup hafMem hafId
      have hall : ∀ j ∈ f :: rest, (mapGet s.annotations j).isSome = true := by
        intro j hj
        rcases List.mem_map.mp (hperm.subset hj) with ⟨b, hbF, hbId⟩
        rw [mapGet_eq_some_of s.annotations j b hnodup (List.mem_of_mem_filter hbF) hbId]
        rfl
      have hany : (f :: rest).any (fun j => (mapGet s.annotations j).isNone) = false := by
        rw [List.any_eq_false]
        intro x hx hc
        have hs := hall x hx
        rw [Option.isNone_iff_eq_none.mp hc] at hs
        simp at hs
      have hguard := (reorderGuard_iff_perm s.annotations q (f :: rest) hnodup).mpr hperm
      have heq : reorderAnnotations (f :: rest) s
          = { s with
              annotations :=
                replaceOnPage q ((f :: rest).filterMap (mapGet s.annotations)) s.annotations,
              isDirty := true,
              autosaveScheduled := true,
              notifyCount := s.notifyCount + 1 } := by
        rw [reorderAnnotations]
        rw [if_neg (by simp [hany])]
        simp only [hmf]
        rw [hafPage]
        rw [if_pos hguard]
      have hrep : ∀ r ∈ (f :: rest).filterMap (mapGet s.annotations), r.page_number = q := by
        intro r hr
        rcases List.mem_filterMap.mp hr with ⟨j, hjIn, hjGet⟩
        rcases mapGet_eq_some_imp s.annotations j r hjGet with ⟨hrMem, hrId⟩
        rcases List.mem_map.mp (hperm.subset hjIn) with ⟨b, hbF, hbId⟩
        have hbMem : b ∈ s.annotations := List.mem_of_mem_filter hbF
        have hbPage : b.page_number = q := by
          simpa using (List.mem_filter.mp hbF).2
        rw [annId_inj s.annotations r b hnodup hrMem hbMem (hrId.trans hbId.symm)]
        exact hbPage
      have hlen : (s.annotations.filter (fun a => a.page_number = q)).length
          = ((f :: rest).filterMap (mapGet s.annotations)).length := by
        calc (s.annotations.filter (fun a => a.page_number = q)).length
            = ((s.annotations.filter (fun a => a.page_number = q)).map
                (fun a => a.id)).length := (List.length_map _ _).symm
          _ = (f :: rest).length := hperm.length_eq.symm
          _ = ((f :: rest).filterMap (mapGet s.annotations)).length :=
              (filterMap_length_of_isSome _ _ hall).symm
      refine ⟨by rw [heq], ?_, ?_, ?_⟩
      · rw [heq]
        exact replaceOnPage_length q _ _
      · intro i a hi hp
        rw [heq]
        exact replaceOnPage_getElem?_offPage q _ _ i a hi hp
      · rw [heq]
        exact replaceOnPage_filter q _ _ hrep hlen

/-- Witness for C1: reordering page 1 of a three-annotation store (ids
`a`, `b` on page 1, `c` on page 2) with the permutation `[b, a]` flips
that page's order and marks dirty. -/
theorem reorderAnnotations_spec_witness :
    (reorderAnnotations ["b", "a"] store112).isDirty = true
    ∧ (reorderAnnotations ["b", "a"] store112).annotations.filter
        (fun a => a.page_number = 1)
      = ["b", "a"].filterMap (mapGet store112.annotations) := by
  have h := (reorderAnnotations_spec store112 ["b", "a"] (by decide)).2.2.2 1
    (by decide) (by decide)
  exact ⟨h.1, h.2.2.2⟩

/-! ## C8 — text extraction: containment, ordering, joining -/

/-- The comparator is total: for any two pieces one sorts no later than
the other. -/
theorem pieceLE_total (a b : Piece) : pieceLE a b = true ∨ pieceLE b a = true := by
  unfold pieceLE
  have habs : |b.y - a.y| = |a.y - b.y| := abs_sub_comm b.y a.y
  by_cases hl : |a.y - b.y| < 2
  · rw [if_pos hl, if_pos (habs ▸ hl)]
    rcases le_total a.x b.x with h | h
    · left
      simpa using h
    · right
      simpa using h
  · rw [if_neg hl, if_neg (fun hc => hl (habs ▸ hc))]
    rcases le_total a.y b.y with h | h
    · left
      simpa using h
    · right
      simpa using h

/-- Membership through insertion. -/
theorem mem_orderedInsertPiece (p x : Piece) (l : List Piece) :
    x ∈ orderedInsertPiece p l ↔ x = p ∨ x ∈ l := by
  induction l with
  | nil => simp [orderedInsertPiece]
  | cons q rest ih =>
    rw [orderedInsertPiece]
    by_cases h : pieceLE p q
    · rw [if_pos h]
      simp [List.mem_cons]
    · rw [if_neg h]
      simp [List.mem_cons, ih]
      tauto

/-- Insertion permutes. -/
theorem orderedInsertPiece_perm (p : Piece) (l : List Piece) :
    (orderedInsertPiece p l).Perm (p :: l) := by
  induction l with
  | nil => exact List.Perm.refl _
  | cons q rest ih =>
    rw [orderedInsertPiece]
    by_cases h : pieceLE p q
    · rw [if_pos h]
    · rw [if_neg h]
      exact (ih.cons q).trans (List.Perm.swap p q rest)

/-- The sort is a permutation of its input: no run is lost or duplicated. -/
theorem sortPieces_perm (l : List Piece) : (sortPieces l).Perm l := by
  induction l with
  | nil => exact List.Perm.refl _
  | cons p rest ih =>
    rw [sortPieces]
    exact (orderedInsertPiece_perm p (sortPieces rest)).trans (ih.cons p)

/-- When the "same line" (vertical distance `< 2`) relation is transitive
on a set of pieces, the comparator is transitive there. -/
theorem pieceLE_trans_of_lineTrans (S : List Piece)
    (hline : ∀ a ∈ S, ∀ b ∈ S, ∀ c ∈ S,
      |a.y - b.y| < 2 → |b.y - c.y| < 2 → |a.y - c.y| < 2)
    (a b c : Piece) (ha : a ∈ S) (hb : b ∈ S) (hc : c ∈ S)
    (hab : pieceLE a b = true) (hbc : pieceLE b c = true) : pieceLE a c = true := by
  unfold pieceLE at hab hbc ⊢
  by_cases sab : |a.y - b.y| < 2 <;> by_cases sbc : |b.y - c.y| < 2
  · have sac := hline a ha b hb c hc sab sbc
    rw [if_pos sab] at hab
    rw [if_pos sbc] at hbc
    rw [if_pos sac]
    simp only [decide_eq_true_eq] at hab hbc ⊢
    exact le_trans hab hbc
  · rw [if_pos sab] at hab
    rw [if_neg sbc] at hbc
    simp only [decide_eq_true_eq] at hab hbc
    have hnac : ¬ |a.y - c.y| < 2 := by
      intro sac
      have sba : |b.y - a.y| < 2 := by rwa [abs_sub_comm]
      exact sbc (hline b hb a ha c hc sba sac)
    rw [if_neg hnac]
    simp only [decide_eq_true_eq]
    have h1 : a.y - b.y < 2 := (abs_lt.mp sab).2
    have h2 : (2 : ℚ) ≤ |b.y - c.y| := not_lt.mp sbc
    have h3 : (2 : ℚ) ≤ c.y - b.y := by
      rcases abs_cases (b.y - c.y) with ⟨heq, _⟩ | ⟨heq, _⟩ <;> rw [heq] at h2 <;> linarith
    linarith
  · rw [if_neg sab] at hab
    rw [if_pos sbc] at hbc
    simp only [decide_eq_true_eq] at hab hbc
    have hnac : ¬ |a.y - c.y| < 2 := by
      intro sac
      have scb : |c.y - b.y| < 2 := by rwa [abs_sub_comm]
      exact sab (hline a ha c hc b hb sac scb)
    rw [if_neg hnac]
    simp only [decide_eq_true_eq]
    have h2 : (2 : ℚ) ≤ |a.y - b.y| := not_lt.mp sab
    have h3 : (2 : ℚ) ≤ b.y - a.y := by
      rcases abs_cases (a.y - b.y) with ⟨heq, _⟩ | ⟨heq, _⟩ <;> rw [heq] at h2 <;> linarith
    have h4 : b.y - c.y < 2 := (abs_lt.mp sbc).2
    linarith
  · rw [if_neg sab] at hab
    rw [if_neg sbc] at hbc
    simp only [decide_eq_true_eq] at hab hbc
    have h2 : (2 : ℚ) ≤ |a.y - b.y| := not_lt.mp sab
    have h3 : (2 : ℚ) ≤ b.y - a.y := by
      rcases abs_cases (a.y - b.y) with ⟨heq, _⟩ | ⟨heq, _⟩ <;> rw [heq] at h2 <;> linarith
    have h4 : (2 : ℚ) ≤ |b.y - c.y| := not_lt.mp sbc
    have h5 : (2 : ℚ) ≤ c.y - b.y := by
      rcases abs_cases (b.y - c.y) with ⟨heq, _⟩ | ⟨heq, _⟩ <;> rw [heq] at h4 <;> linarith
    have hnac : ¬ |a.y - c.y| < 2 := by
      intro sac
      have := (abs_lt.mp sac).1
      linarith
    rw [if_neg hnac]
    simp only [decide_eq_true_eq]
    linarith

/-- Inserting into a sorted list keeps it sorted (elements drawn from a
set on which the same-line relation is transitive). -/
theorem orderedInsertPiece_pairwise (S : List Piece)
    (hline : ∀ a ∈ S, ∀ b ∈ S, ∀ c ∈ S,
      |a.y - b.y| < 2 → |b.y - c.y| < 2 → |a.y - c.y| < 2)
    (p : Piece) (hpS : p ∈ S) (l : List Piece) :
    (∀ x ∈ l, x ∈ S) →
    l.Pairwise (fun a b => pieceLE a b = true) →
    (orderedInsertPiece p l).Pairwise (fun a b => pieceLE a b = true) := by
  induction l with
  | nil =>
    intro _ _
    simp [orderedInsertPiece]
  | cons q rest ih =>
    intro hlS hl
    rw [List.pairwise_cons] at hl
    obtain ⟨hq, hrest⟩ := hl
    rw [orderedInsertPiece]
    by_cases h : pieceLE p q
    · rw [if_pos h]
      rw [List.pairwise_cons]
      refine ⟨?_, by rw [List.pairwise_cons]; exact ⟨hq, hrest⟩⟩
      intro x hx
      rcases List.mem_cons.mp hx with rfl | hx2
      · exact h
      · exact pieceLE_trans_of_lineTrans S hline p q x hpS
          (hlS q (List.mem_cons_self q rest)) (hlS x (List.mem_cons_of_mem q hx2))
          h (hq x hx2)
    · rw [if_neg h]
      rw [List.pairwise_cons]
      constructor
      · intro x hx
        rcases (mem_orderedInsertPiece p x rest).mp hx with rfl | hx2
        · rcases pieceLE_total x q with h2 | h2
          · exact absurd h2 h
          · exact h2
        · exact hq x hx2
      · exact ih (fun x hx => hlS x (List.mem_cons_of_mem q hx)) hrest

/-- The sort output is pairwise ordered by the comparator whenever the
same-line relation is transitive on the input. -/
theorem sortPieces_pairwise (S : List Piece)
    (hline : ∀ a ∈ S, ∀ b ∈ S, ∀ c ∈ S,
      |a.y - b.y| < 2 → |b.y - c.y| < 2 → |a.y - c.y| < 2)
    (l : List Piece) :
    (∀ x ∈ l, x ∈ S) →
    (sortPieces l).Pairwise (fun a b => pieceLE a b = true) := by
  induction l with
  | nil =>
    intro _
    simp [sortPieces]
  | cons p rest ih =>
    intro hls
    rw [sortPieces]
    exact orderedInsertPiece_pairwise S hline p (hls p (List.mem_cons_self p rest))
      (sortPieces rest)
      (fun x hx =>
        hls x (List.mem_cons_of_mem p ((sortPieces_perm rest).mem_iff.mp hx)))
      (ih (fun x hx => hls x (List.mem_cons_of_mem p hx)))

/-- Counterexample to C8 as stated, on two counts.  (a) Tolerance: the
`contains` check has **no** pixel tolerance — a run whose box spans
x 9..11, overhanging the 0..10 selection's right edge by one pixel
(within a 2px tolerance, the comparator's own line threshold), is
excluded, while a run exactly touching the boundary from inside is
included (closed comparisons).  (b) Ordering: the claimed order is not
achievable in general, because the comparator cycles — for included
pieces P1 (y 0, x 5), P2 (y 1, x 1), P3 (y 2, x 0): P2 strictly
precedes P1 (same line, smaller x), P3 strictly precedes P2 (same
line), yet P1 strictly precedes P3 (different lines, smaller y), so
*no* output order satisfies both clauses of the claim; concretely the
sort outputs P1, P3, P2, placing P1 (x 5) before the same-line P2
(x 1), violating left-to-right. -/
theorem extractText_counterexample :
    containsBox ⟨0, 0, 10, 10⟩ ⟨9, 0, 2, 2⟩ = false
    ∧ ((0 : ℚ) - 2 ≤ 9 ∧ (9 : ℚ) + 2 ≤ 0 + 10 + 2
        ∧ (0 : ℚ) - 2 ≤ 0 ∧ (0 : ℚ) + 2 ≤ 0 + 10 + 2)
    ∧ includedPieces ⟨0, 0, 10, 10⟩ [⟨⟨9, 0, 2, 2⟩, "edge"⟩] = []
    ∧ extractTextFromSelectionScreenRect ⟨0, 0, 10, 10⟩
        [⟨⟨9, 0, 2, 2⟩, "edge"⟩] = ""
    ∧ containsBox ⟨0, 0, 10, 10⟩ ⟨9, 0, 1, 1⟩ = true
    ∧ includedPieces ⟨0, 0, 100, 100⟩
        [⟨⟨5, 0, 2, 2⟩, "P1"⟩, ⟨⟨1, 1, 2, 2⟩, "P2"⟩, ⟨⟨0, 2, 2, 2⟩, "P3"⟩]
      = [⟨0, 5, "P1"⟩, ⟨1, 1, "P2"⟩, ⟨2, 0, "P3"⟩]
    ∧ (pieceLE ⟨1, 1, "P2"⟩ ⟨0, 5, "P1"⟩ = true
        ∧ pieceLE ⟨0, 5, "P1"⟩ ⟨1, 1, "P2"⟩ = false)
    ∧ (pieceLE ⟨2, 0, "P3"⟩ ⟨1, 1, "P2"⟩ = true
        ∧ pieceLE ⟨1, 1, "P2"⟩ ⟨2, 0, "P3"⟩ = false)
    ∧ (pieceLE ⟨0, 5, "P1"⟩ ⟨2, 0, "P3"⟩ = true
        ∧ pieceLE ⟨2, 0, "P3"⟩ ⟨0, 5, "P1"⟩ = false)
    ∧ sortPieces [⟨0, 5, "P1"⟩, ⟨1, 1, "P2"⟩, ⟨2, 0, "P3"⟩]
      = [⟨0, 5, "P1"⟩, ⟨2, 0, "P3"⟩, ⟨1, 1, "P2"⟩]
    ∧ (|(0 : ℚ) - 1| < 2 ∧ ¬ ((5 : ℚ) ≤ 1)) := by
  have hc : containsBox ⟨0, 0, 10, 10⟩ ⟨9, 0, 2, 2⟩ = false := by
    cases h : containsBox ⟨0, 0, 10, 10⟩ ⟨9, 0, 2, 2⟩ with
    | false => rfl
    | true =>
      rw [containsBox] at h
      simp only [Bool.and_eq_true, decide_eq_true_eq] at h
      norm_num at h
  have hinc : includedPieces ⟨0, 0, 10, 10⟩ [⟨⟨9, 0, 2, 2⟩, "edge"⟩] = [] := by
    simp [includedPieces, hc]
  have htrue : containsBox ⟨0, 0, 10, 10⟩ ⟨9, 0, 1, 1⟩ = true := by
    rw [containsBox]
    simp only [Bool.and_eq_true, decide_eq_true_eq]
    norm_num
  have hP2P1 : pieceLE ⟨1, 1, "P2"⟩ ⟨0, 5, "P1"⟩ = true := by
    rw [pieceLE, if_pos (show |(1 : ℚ) - 0| < 2 by rw [abs_lt]; constructor <;> norm_num)]
    simp only [decide_eq_true_eq]
    norm_num
  have hP1P2 : pieceLE ⟨0, 5, "P1"⟩ ⟨1, 1, "P2"⟩ = false := by
    rw [pieceLE, if_pos (show |(0 : ℚ) - 1| < 2 by rw [abs_lt]; constructor <;> norm_num)]
    simp only [decide_eq_false_iff_not]
    norm_num
  have hP3P2 : pieceLE ⟨2, 0, "P3"⟩ ⟨1, 1, "P2"⟩ = true := by
    rw [pieceLE, if_pos (show |(2 : ℚ) - 1| < 2 by rw [abs_lt]; constructor <;> norm_num)]
    simp only [decide_eq_true_eq]
    norm_num
  have hP2P3 : pieceLE ⟨1, 1, "P2"⟩ ⟨2, 0, "P3"⟩ = false := by
    rw [pieceLE, if_pos (show |(1 : ℚ) - 2| < 2 by rw [abs_lt]; constructor <;> norm_num)]
    simp only [decide_eq_false_iff_not]
    norm_num
  have hP1P3 : pieceLE ⟨0, 5, "P1"⟩ ⟨2, 0, "P3"⟩ = true := by
    rw [pieceLE, if_neg (show ¬ |(0 : ℚ) - 2| < 2 by rw [abs_lt]; norm_num)]
    simp only [decide_eq_true_eq]
    norm_num
  have hP3P1 : pieceLE ⟨2, 0, "P3"⟩ ⟨0, 5, "P1"⟩ = false := by
    rw [pieceLE, if_neg (show ¬ |(2 : ℚ) - 0| < 2 by rw [abs_lt]; norm_num)]
    simp only [decide_eq_false_iff_not]
    norm_num
  have hc1 : containsBox ⟨0, 0, 100, 100⟩ ⟨5, 0, 2, 2⟩ = true := by
    rw [containsBox]
    simp only [Bool.and_eq_true, decide_eq_true_eq]
    norm_num
  have hc2 : containsBox ⟨0, 0, 100, 100⟩ ⟨1, 1, 2, 2⟩ = true := by
    rw [containsBox]
    simp only [Bool.and_eq_true, decide_eq_true_eq]
    norm_num
  have hc3 : containsBox ⟨0, 0, 100, 100⟩ ⟨0, 2, 2, 2⟩ = true := by
    rw [containsBox]
    simp only [Bool.and_eq_true, decide_eq_true_eq]
    norm_num
  have hinc3 : includedPieces ⟨0, 0, 100, 100⟩
      [⟨⟨5, 0, 2, 2⟩, "P1"⟩, ⟨⟨1, 1, 2, 2⟩, "P2"⟩, ⟨⟨0, 2, 2, 2⟩, "P3"⟩]
      = [⟨0, 5, "P1"⟩, ⟨1, 1, "P2"⟩, ⟨2, 0, "P3"⟩] := by
    simp [includedPieces, hc1, hc2, hc3]
  have hsort : sortPieces [⟨0, 5, "P1"⟩, ⟨1, 1, "P2"⟩, ⟨2, 0, "P3"⟩]
      = [⟨0, 5, "P1"⟩, ⟨2, 0, "P3"⟩, ⟨1, 1, "P2"⟩] := by
    simp [sortPieces, orderedInsertPiece, hP2P3, hP1P3]
  refine ⟨hc, by norm_num, hinc, ?_, htrue, hinc3, ⟨hP2P1, hP1P2⟩,
    ⟨hP3P2, hP2P3⟩, ⟨hP1P3, hP3P1⟩, hsort,
    ⟨by rw [abs_lt]; constructor <;> norm_num, by norm_num⟩⟩
  rw [extractTextFromSelectionScreenRect, hinc]
  simp [sortPieces, sanitizeExtractedText, collapseWS, fixPunct, trimWS,
    String.intercalate]

/-- C8 (amended): a run is included exactly when its box lies within the
selection rectangle under closed comparisons (boundary-touching boxes
included; **no** positive pixel tolerance beyond the boundary); provided
the same-line relation (vertical distance `< 2`px) is transitive on the
included runs — the counterexample's comparator cycle shows the
ordering clause is unsatisfiable without some such proviso — the sorted
order is pairwise top-to-bottom with left-to-right among same-line
runs; the output is that order joined with single spaces and sanitized
(whitespace collapsed, space before `.`/`,` after a letter removed). -/
theorem extractText_spec (sel : Box) (runs : List Run)
    (hline : ∀ a ∈ includedPieces sel runs, ∀ b ∈ includedPieces sel runs,
      ∀ c ∈ includedPieces sel runs,
      |a.y - b.y| < 2 → |b.y - c.y| < 2 → |a.y - c.y| < 2) :
    (∀ r ∈ runs, containsBox sel r.box = true →
        ({ y := r.box.y, x := r.box.x, str := r.str } : Piece) ∈ includedPieces sel runs)
    ∧ (∀ pc ∈ includedPieces sel runs, ∃ r ∈ runs,
        containsBox sel r.box = true
          ∧ pc = ({ y := r.box.y, x := r.box.x, str := r.str } : Piece))
    ∧ (sortPieces (includedPieces sel runs)).Perm (includedPieces sel runs)
    ∧ (sortPieces (includedPieces sel runs)).Pairwise (fun a b => pieceLE a b = true)
    ∧ extractTextFromSelectionScreenRect sel runs
        = sanitizeExtractedText
            (String.intercalate " "
              ((sortPieces (includedPieces sel runs)).map (fun p => p.str))) := by
  refine ⟨?_, ?_, sortPieces_perm _, ?_, rfl⟩
  · intro r hr hc
    rw [includedPieces, List.mem_map]
    exact ⟨r, List.mem_filter.mpr ⟨hr, by simpa using hc⟩, rfl⟩
  · intro pc hpc
    rw [includedPieces, List.mem_map] at hpc
    rcases hpc with ⟨r, hrF, hrEq⟩
    rcases List.mem_filter.mp hrF with ⟨hrMem, hrC⟩
    exact ⟨r, hrMem, by simpa using hrC, hrEq.symm⟩
  · exact sortPieces_pairwise (includedPieces sel runs) hline
      (includedPieces sel runs) (fun x hx => hx)

/-- Witness for the amended C8: two concrete runs on one visual line
(y 10 and 11, within the 2px threshold) satisfy the line-transitivity
hypothesis; the sort is pairwise ordered and the extracted text is the
sanitized join. -/
theorem extractText_spec_witness :
    (sortPieces (includedPieces ⟨0, 0, 100, 100⟩
        [⟨⟨5, 10, 2, 2⟩, "B"⟩, ⟨⟨1, 11, 2, 2⟩, "A"⟩])).Pairwise
      (fun a b => pieceLE a b = true)
    ∧ extractTextFromSelectionScreenRect ⟨0, 0, 100, 100⟩
        [⟨⟨5, 10, 2, 2⟩, "B"⟩, ⟨⟨1, 11, 2, 2⟩, "A"⟩]
      = sanitizeExtractedText
          (String.intercalate " "
            ((sortPieces (includedPieces ⟨0, 0, 100, 100⟩
              [⟨⟨5, 10, 2, 2⟩, "B"⟩, ⟨⟨1, 11, 2, 2⟩, "A"⟩])).map (fun p => p.str))) := by
  have hc1 : containsBox ⟨0, 0, 100, 100⟩ ⟨5, 10, 2, 2⟩ = true := by
    rw [containsBox]
    simp only [Bool.and_eq_true, decide_eq_true_eq]
    norm_num
  have hc2 : containsBox ⟨0, 0, 100, 100⟩ ⟨1, 11, 2, 2⟩ = true := by
    rw [containsBox]
    simp only [Bool.and_eq_true, decide_eq_true_eq]
    norm_num
  have hinc : includedPieces ⟨0, 0, 100, 100⟩
      [⟨⟨5, 10, 2, 2⟩, "B"⟩, ⟨⟨1, 11, 2, 2⟩, "A"⟩]
      = [⟨10, 5, "B"⟩, ⟨11, 1, "A"⟩] := by
    simp [includedPieces, hc1, hc2]
  have hline : ∀ a ∈ includedPieces ⟨0, 0, 100, 100⟩
        [⟨⟨5, 10, 2, 2⟩, "B"⟩, ⟨⟨1, 11, 2, 2⟩, "A"⟩],
      ∀ b ∈ includedPieces ⟨0, 0, 100, 100⟩
        [⟨⟨5, 10, 2, 2⟩, "B"⟩, ⟨⟨1, 11, 2, 2⟩, "A"⟩],
      ∀ c ∈ includedPieces ⟨0, 0, 100, 100⟩
        [⟨⟨5, 10, 2, 2⟩, "B"⟩, ⟨⟨1, 11, 2, 2⟩, "A"⟩],
      |a.y - b.y| < 2 → |b.y - c.y| < 2 → |a.y - c.y| < 2 := by
    rw [hinc]
    intro a ha b hb c hc h1 h2
    simp only [List.mem_cons, List.not_mem_nil, or_false] at ha hc
    rcases ha with rfl | rfl <;> rcases hc with rfl | rfl <;> norm_num [abs_lt]
  have h := extractText_spec ⟨0, 0, 100, 100⟩
    [⟨⟨5, 10, 2, 2⟩, "B"⟩, ⟨⟨1, 11, 2, 2⟩, "A"⟩] hline
  exact ⟨h.2.2.2.1, h.2.2.2.2⟩

end LayoutEditor
